import Mathlib

/-!
A shallow embedding of the synthetic-dataset compositor in
`src/model/data_creator.py` (riftbound-scanner).

Conventions of the embedding:
* Python/NumPy floats are modelled as `ℚ`; `int(...)` truncation toward zero
  is `pyInt`.
* Images are pixel functions over `ℤ` coordinates; the canvas is mutated by
  returning a new function, mirroring the in-place numpy slice assignment.
* OpenCV's pixel-level routines (`cv2.resize`, `cv2.warpPerspective`,
  `cv2.warpAffine`) are an external library, so they enter the embedding as
  parameters bundled in `Cv2Model`; the matrices the source builds and passes
  to them are computed by the embedding itself.  `cv2.flip` is modelled
  concretely since its effect (a pure horizontal mirror preserving the image
  shape) is relied on by the source.
* The random draws the source takes from Python's `random` module
  (angle, scale, flip, positions, the perspective gate and matrix) are
  explicit arguments: the embedding is the deterministic function from those
  draws to the program's output.
-/

namespace DataCreator

/-- Python `int()` applied to a float: truncation toward zero. -/
def pyInt (q : ℚ) : ℤ := if 0 ≤ q then ⌊q⌋ else -⌊-q⌋

/-- A 2-D point (or coordinate pair) with rational coordinates. -/
abbrev Pt := ℚ × ℚ

/-- A 2×3 affine matrix `[[a, b, c], [d, e, f]]` as used by `cv2.warpAffine`. -/
@[ext]
structure Aff where
  a : ℚ
  b : ℚ
  c : ℚ
  d : ℚ
  e : ℚ
  f : ℚ
deriving DecidableEq

/-- The action of a 2×3 affine matrix on a point. -/
def affApply (M : Aff) (p : Pt) : Pt :=
  (M.a * p.1 + M.b * p.2 + M.c, M.d * p.1 + M.e * p.2 + M.f)

/-- A 3×3 perspective (homography) matrix as produced by
`cv2.getPerspectiveTransform` and consumed by `cv2.warpPerspective`. -/
structure P3 where
  m00 : ℚ
  m01 : ℚ
  m02 : ℚ
  m10 : ℚ
  m11 : ℚ
  m12 : ℚ
  m20 : ℚ
  m21 : ℚ
  m22 : ℚ
deriving DecidableEq

/-- The action of a homography on a point via homogeneous coordinate
division — exactly the computation in `place_card_on_bg` lines 906–909
(`transformed[:, :2] / transformed[:, 2:3]`). -/
def perspApply (M : P3) (p : Pt) : Pt :=
  let X := M.m00 * p.1 + M.m01 * p.2 + M.m02
  let Y := M.m10 * p.1 + M.m11 * p.2 + M.m12
  let W := M.m20 * p.1 + M.m21 * p.2 + M.m22
  (X / W, Y / W)

/-- `cv2.getRotationMatrix2D((cx, cy), angle, 1.0)` with the angle given by
its cosine `ca` and sine `sa` (the source passes `-angle_deg`, so
`ca = cos (-angle_deg)` and `sa = sin (-angle_deg)` in degrees). -/
def getRotationMatrix2D (cx cy ca sa : ℚ) : Aff :=
  ⟨ca, sa, (1 - ca) * cx - sa * cy, -sa, ca, sa * cx + (1 - ca) * cy⟩

/-- A BGR pixel (uint8 values embedded in `ℚ`). -/
abbrev Px3 := ℚ × ℚ × ℚ

/-- A BGRA pixel: BGR plus an alpha value. -/
abbrev Px4 := Px3 × ℚ

/-- The mutable background canvas: a pixel function `canvas y x`. -/
abbrev CanvasF := ℤ → ℤ → Px3

/-- A card image with alpha: a pixel function `img y x`. -/
abbrev CardPx := ℤ → ℤ → Px4

/-- The external OpenCV pixel routines the source calls.  Theorems about the
embedding are proved for every behaviour of these routines; OpenCV guarantees
the output of each has exactly the width/height the source requests, which
the source exploits by tracking dimensions itself. -/
structure Cv2Model where
  resizePx : CardPx → ℤ → ℤ → CardPx
  warpPerspectivePx : CardPx → P3 → ℤ → ℤ → CardPx
  warpAffinePx : CardPx → Aff → ℤ → ℤ → CardPx

/-- `cv2.flip(img, 1)`: horizontal mirror of an image of width `w`;
the shape is unchanged. -/
def flipH (w : ℤ) (img : CardPx) : CardPx :=
  fun y x => img y (w - 1 - x)

/-- Lines 883–885: if the card has only 3 channels, append a fully opaque
alpha channel. -/
def ensureAlpha (hasA : Bool) (img : CardPx) : CardPx :=
  if hasA then img else fun y x => ((img y x).1, 255)

/-- Alpha compositing of one card pixel over one background pixel,
lines 962–966: `blended = rgb * alpha + bg * (1 - alpha)` followed by the
`astype(np.uint8)` conversion (truncation, modelled as floor — the operands
are non-negative in the pipeline — then wrap modulo 256). -/
def blendPx (c : Px4) (b : Px3) : Px3 :=
  let a := c.2 / 255
  ((((⌊c.1.1 * a + b.1 * (1 - a)⌋ : ℤ) % 256 : ℤ) : ℚ),
   (((⌊c.1.2.1 * a + b.2.1 * (1 - a)⌋ : ℤ) % 256 : ℤ) : ℚ),
   (((⌊c.1.2.2 * a + b.2.2 * (1 - a)⌋ : ℤ) % 256 : ℤ) : ℚ))

/-- The arguments of `place_card_on_bg`, with every random draw the function
makes internally (the `PERSPECTIVE_PROB` gate and the perspective matrix)
made explicit.  `ca`/`sa` are the cosine and sine of the angle the source
passes to `cv2.getRotationMatrix2D`, namely `-angle_deg`. -/
structure PlaceArgs where
  hbg : ℤ
  wbg : ℤ
  bg : CanvasF
  cardH : ℤ
  cardW : ℤ
  cardPx : CardPx
  cardHasAlpha : Bool
  ca : ℚ
  sa : ℚ
  scale : ℚ
  posx : ℚ
  posy : ℚ
  flip : Bool
  persp : Option P3

/-- Line 871: `new_h = int(h_bg * scale)`. -/
def newH (A : PlaceArgs) : ℤ := pyInt ((A.hbg : ℚ) * A.scale)

/-- Line 872: `new_w = int(new_h * card_w / card_h)`. -/
def newW (A : PlaceArgs) : ℤ := pyInt ((newH A : ℚ) * (A.cardW : ℚ) / (A.cardH : ℚ))

/-- Line 873: the minimum-size rejection condition `new_w < 10 or new_h < 10`. -/
def sizeRejected (A : PlaceArgs) : Prop := newW A < 10 ∨ newH A < 10

instance (A : PlaceArgs) : Decidable (sizeRejected A) := by
  unfold sizeRejected; exact inferInstance

/-- The card width after resizing (and after the optional flip and
perspective warp, both of which preserve the shape), as a rational. -/
def cwq (A : PlaceArgs) : ℚ := (newW A : ℚ)

/-- The card height after resizing, as a rational. -/
def chq (A : PlaceArgs) : ℚ := (newH A : ℚ)

/-- Line 894: `cx = cw / 2`. -/
def cxq (A : PlaceArgs) : ℚ := cwq A / 2

/-- Line 894: `cy = ch / 2`. -/
def cyq (A : PlaceArgs) : ℚ := chq A / 2

/-- Lines 897–902: the original card corners, in the fixed order
top-left, top-right, bottom-right, bottom-left. -/
def baseCorners (A : PlaceArgs) : List Pt :=
  [(0, 0), (cwq A, 0), (cwq A, chq A), (0, chq A)]

/-- Lines 905–909: the corners after the optional perspective transform,
applied via homogeneous coordinate division. -/
def perspCorners (A : PlaceArgs) : List Pt :=
  match A.persp with
  | none => baseCorners A
  | some M => (baseCorners A).map (perspApply M)

/-- Line 912: `cv2.getRotationMatrix2D((cx, cy), -angle_deg, 1.0)`. -/
def rotBase (A : PlaceArgs) : Aff :=
  getRotationMatrix2D (cxq A) (cyq A) A.ca A.sa

/-- Line 915: `cos_a = abs(rot_matrix[0, 0])`. -/
def cosAbs (A : PlaceArgs) : ℚ := |(rotBase A).a|

/-- Line 916: `sin_a = abs(rot_matrix[0, 1])`. -/
def sinAbs (A : PlaceArgs) : ℚ := |(rotBase A).b|

/-- Line 917: `new_bw = int(cw * cos_a + ch * sin_a)`. -/
def newBW (A : PlaceArgs) : ℤ := pyInt (cwq A * cosAbs A + chq A * sinAbs A)

/-- Line 918: `new_bh = int(cw * sin_a + ch * cos_a)`. -/
def newBH (A : PlaceArgs) : ℤ := pyInt (cwq A * sinAbs A + chq A * cosAbs A)

/-- Lines 921–922: the rotation matrix with its translation terms adjusted
for the expanded bounding buffer.  This single matrix is what the source
passes to `cv2.warpAffine` (line 924) and what it applies to every corner
(lines 933–936). -/
def rotM (A : PlaceArgs) : Aff :=
  { rotBase A with
    c := (rotBase A).c + ((newBW A : ℚ) - cwq A) / 2,
    f := (rotBase A).f + ((newBH A : ℚ) - chq A) / 2 }

/-- Lines 932–936: the corners after rotation, computed component-wise with
the entries of `rot_matrix` exactly as the source writes them. -/
def rotatedCorners (A : PlaceArgs) : List Pt :=
  (perspCorners A).map (fun pt =>
    ((rotM A).a * pt.1 + (rotM A).b * pt.2 + (rotM A).c,
     (rotM A).d * pt.1 + (rotM A).e * pt.2 + (rotM A).f))

/-- Line 939: `off_x = int(pos_x * w_bg - new_bw / 2)`. -/
def offX (A : PlaceArgs) : ℤ := pyInt (A.posx * (A.wbg : ℚ) - (newBW A : ℚ) / 2)

/-- Line 940: `off_y = int(pos_y * h_bg - new_bh / 2)`. -/
def offY (A : PlaceArgs) : ℤ := pyInt (A.posy * (A.hbg : ℚ) - (newBH A : ℚ) / 2)

/-- Line 943: the rotated buffer has no overlap with the canvas. -/
def offCanvas (A : PlaceArgs) : Prop :=
  offX A + newBW A < 0 ∨ offY A + newBH A < 0 ∨ A.wbg ≤ offX A ∨ A.hbg ≤ offY A

instance (A : PlaceArgs) : Decidable (offCanvas A) := by
  unfold offCanvas; exact inferInstance

/-- Line 947: `src_x1 = max(0, -off_x)`. -/
def srcX1 (A : PlaceArgs) : ℤ := max 0 (-offX A)

/-- Line 948: `src_y1 = max(0, -off_y)`. -/
def srcY1 (A : PlaceArgs) : ℤ := max 0 (-offY A)

/-- Line 949: `src_x2 = min(new_bw, w_bg - off_x)`. -/
def srcX2 (A : PlaceArgs) : ℤ := min (newBW A) (A.wbg - offX A)

/-- Line 950: `src_y2 = min(new_bh, h_bg - off_y)`. -/
def srcY2 (A : PlaceArgs) : ℤ := min (newBH A) (A.hbg - offY A)

/-- Line 952: `dst_x1 = max(0, off_x)`. -/
def dstX1 (A : PlaceArgs) : ℤ := max 0 (offX A)

/-- Line 953: `dst_y1 = max(0, off_y)`. -/
def dstY1 (A : PlaceArgs) : ℤ := max 0 (offY A)

/-- Line 954: `dst_x2 = dst_x1 + (src_x2 - src_x1)`. -/
def dstX2 (A : PlaceArgs) : ℤ := dstX1 A + (srcX2 A - srcX1 A)

/-- Line 955: `dst_y2 = dst_y1 + (src_y2 - src_y1)`. -/
def dstY2 (A : PlaceArgs) : ℤ := dstY1 A + (srcY2 A - srcY1 A)

/-- Line 959: the clipped card region `rotated[src_y1:src_y2, src_x1:src_x2]`
is empty (`card_region.size == 0`). -/
def emptyRegion (A : PlaceArgs) : Prop :=
  srcX2 A ≤ srcX1 A ∨ srcY2 A ≤ srcY1 A

instance (A : PlaceArgs) : Decidable (emptyRegion A) := by
  unfold emptyRegion; exact inferInstance

/-- Lines 970–974: the corners translated into normalized background
coordinates. -/
def finalCorners (A : PlaceArgs) : List Pt :=
  (rotatedCorners A).map (fun rc =>
    ((rc.1 + (offX A : ℚ)) / (A.wbg : ℚ), (rc.2 + (offY A : ℚ)) / (A.hbg : ℚ)))

/-- Line 977: how many of the normalized corners lie inside `[0,1]²`,
before clamping. -/
def insideCount (A : PlaceArgs) : ℕ :=
  ((finalCorners A).filter
    (fun c => decide (0 ≤ c.1 ∧ c.1 ≤ 1 ∧ 0 ≤ c.2 ∧ c.2 ≤ 1))).length

/-- Line 982: `max(0.0, min(1.0, v))`. -/
def clamp01 (q : ℚ) : ℚ := max 0 (min 1 q)

/-- Line 982: all corners clamped into `[0,1]²`. -/
def clampedCorners (A : PlaceArgs) : List Pt :=
  (finalCorners A).map (fun c => (clamp01 c.1, clamp01 c.2))

/-- Line 876: `cv2.resize(card_img, (new_w, new_h))`. -/
def resizedImg (cv : Cv2Model) (A : PlaceArgs) : CardPx :=
  cv.resizePx A.cardPx (newW A) (newH A)

/-- Lines 879–880: the optional horizontal flip of the resized card. -/
def flippedImg (cv : Cv2Model) (A : PlaceArgs) : CardPx :=
  if A.flip then flipH (newW A) (resizedImg cv A) else resizedImg cv A

/-- Lines 883–885: the card with an alpha channel ensured. -/
def preppedImg (cv : Cv2Model) (A : PlaceArgs) : CardPx :=
  ensureAlpha A.cardHasAlpha (flippedImg cv A)

/-- Lines 888–890: the card after the optional perspective warp; the output
size requested from `cv2.warpPerspective` is the unchanged `(w, h)`. -/
def perspImg (cv : Cv2Model) (A : PlaceArgs) : CardPx :=
  match A.persp with
  | none => preppedImg cv A
  | some M => cv.warpPerspectivePx (preppedImg cv A) M (newW A) (newH A)

/-- Lines 924–929: `cv2.warpAffine(card_resized, rot_matrix, (new_bw, new_bh))`
with the adjusted rotation matrix `rotM`. -/
def rotatedImg (cv : Cv2Model) (A : PlaceArgs) : CardPx :=
  cv.warpAffinePx (perspImg cv A) (rotM A) (newBW A) (newBH A)

/-- Lines 958–967: the canvas after the in-place alpha compositing of the
clipped card region `rotated[src_y1:src_y2, src_x1:src_x2]` into
`bg[dst_y1:dst_y2, dst_x1:dst_x2]`. -/
def compositedCanvas (cv : Cv2Model) (A : PlaceArgs) : CanvasF :=
  fun y x =>
    if dstY1 A ≤ y ∧ y < dstY2 A ∧ dstX1 A ≤ x ∧ x < dstX2 A then
      blendPx (rotatedImg cv A (srcY1 A + (y - dstY1 A)) (srcX1 A + (x - dstX1 A)))
        (A.bg y x)
    else A.bg y x

/-- The whole of `place_card_on_bg` (lines 838–984): the returned canvas and
the optional list of clamped OBB corners.  The four rejection points occur in
the source's order: minimum scaled size (line 873), no overlap with the
canvas (line 943), empty clipped region (line 959) — each returning the
untouched background — and finally fewer than 3 corners inside (line 978),
which happens after the compositing has already mutated the canvas. -/
def placeCardOnBg (cv : Cv2Model) (A : PlaceArgs) : CanvasF × Option (List Pt) :=
  if sizeRejected A then (A.bg, none)
  else if offCanvas A then (A.bg, none)
  else if emptyRegion A then (A.bg, none)
  else if insideCount A < 3 then (compositedCanvas cv A, none)
  else (compositedCanvas cv A, some (clampedCorners A))

/-- `pos_x` and `pos_y` set with `A.flip` replaced: the two runs of
`place_card_on_bg` compared in the flip-invariance property differ only in
the `flip_horizontal` argument. -/
def withFlip (A : PlaceArgs) (f : Bool) : PlaceArgs := { A with flip := f }

/-- Line 1022: whether a candidate position is far enough from one occupied
centre: `math.hypot(px - ox, py - oy) > scale * 0.35`.  Since `hypot` is the
non-negative Euclidean norm, `hypot p > t` holds iff `t < 0` or
`t² < (px-ox)² + (py-oy)²`; the embedding uses that square-free equivalent to
stay inside `ℚ`. -/
def farEnough (p o : Pt) (t : ℚ) : Bool :=
  if t < 0 then true
  else decide (t ^ 2 < (p.1 - o.1) ^ 2 + (p.2 - o.2) ^ 2)

/-- Lines 1021–1024: the acceptance test of the position loop,
`not occupied or all(... > scale * 0.35 for ox, oy in occupied)`. -/
def acceptPos (occupied : List Pt) (scale : ℚ) (p : Pt) : Bool :=
  occupied.isEmpty || occupied.all (fun o => farEnough p o (scale * (35 / 100)))

/-- Lines 1018–1025: the body of `for _ in range(15)` starting at iteration
`i` with `fuel` iterations left and current `(px, py) = cur`: draw a
candidate, keep it and stop if it is accepted, otherwise continue; after the
final iteration the last-drawn candidate stays. -/
def posLoopFrom (draw : ℕ → Pt) (occupied : List Pt) (scale : ℚ) :
    ℕ → ℕ → Pt → Pt
  | _, 0, cur => cur
  | i, fuel + 1, _ =>
    let p := draw i
    if acceptPos occupied scale p then p
    else posLoopFrom draw occupied scale (i + 1) fuel p

/-- Lines 1017–1025: the full position-selection loop of
`_place_single_card`: `px, py = 0.5, 0.5` followed by 15 draw-and-test
iterations. -/
def pickPos (draw : ℕ → Pt) (occupied : List Pt) (scale : ℚ) : Pt :=
  posLoopFrom draw occupied scale 0 15 (1 / 2, 1 / 2)

/-- Lines 987–1028: `_place_single_card`.  `cardLoaded` is `none` when
`cv2.imread` failed (line 1009); otherwise it carries the decoded card's
dimensions, pixels and whether it had an alpha channel.  The random draws
(angle as cosine/sine of `-angle`, scale, flip, perspective, and the
candidate position stream) are explicit arguments.  Whatever position the
loop settles on, the function proceeds to `place_card_on_bg`, which may
itself reject the placement. -/
def placeSingleCard (cv : Cv2Model) (hbg wbg : ℤ) (bg : CanvasF)
    (cardLoaded : Option (ℤ × ℤ × CardPx × Bool))
    (ca sa scale : ℚ) (flip : Bool) (persp : Option P3)
    (draw : ℕ → Pt) (occupied : List Pt) :
    CanvasF × Option (List Pt) × Pt :=
  match cardLoaded with
  | none => (bg, none, (0, 0))
  | some card =>
    let p := pickPos draw occupied scale
    let r := placeCardOnBg cv
      { hbg := hbg, wbg := wbg, bg := bg,
        cardH := card.1, cardW := card.2.1, cardPx := card.2.2.1,
        cardHasAlpha := card.2.2.2,
        ca := ca, sa := sa, scale := scale,
        posx := p.1, posy := p.2, flip := flip, persp := persp }
    (r.1, r.2, p)

/-- Lines 1066–1076 of `generate_image`: the per-card loop.  Each selected
card gets exactly one placement call (threading the mutated canvas through);
a `None` result is skipped with `continue` — the card is dropped, never
retried. -/
def placeLoop (place : ℕ → CanvasF → CanvasF × Option (List Pt)) :
    List ℕ → CanvasF → CanvasF × List (List Pt)
  | [], bg => (bg, [])
  | c :: rest, bg =>
    let r := place c bg
    let ih := placeLoop place rest r.1
    (ih.1, r.2.toList ++ ih.2)

/-- The sequence of per-card placement outcomes of `placeLoop`, one entry per
selected card, with the canvas threaded exactly as in the loop. -/
def loopOutcomes (place : ℕ → CanvasF → CanvasF × Option (List Pt)) :
    List ℕ → CanvasF → List (Option (List Pt))
  | [], _ => []
  | c :: rest, bg =>
    let r := place c bg
    r.2 :: loopOutcomes place rest r.1

/-- One-card sample label computation: the labels `generate_image` retains
when `n_cards = 1` (an empty list when the placement was rejected, a
singleton with the card's corners when it was accepted).  All geometry draws
come from Python's unseeded `random` module; the NumPy generator — the only
source this module seeds (line 15, seed 42) — is never consulted for label
geometry. -/
def singleCardSampleLabels (cv : Cv2Model) (hbg wbg : ℤ) (bg : CanvasF)
    (cardLoaded : Option (ℤ × ℤ × CardPx × Bool))
    (ca sa scale : ℚ) (flip : Bool) (persp : Option P3)
    (draw : ℕ → Pt) : List (List Pt) :=
  match (placeSingleCard cv hbg wbg bg cardLoaded ca sa scale flip persp draw []).2.1 with
  | none => []
  | some cs => [cs]

/-- Line 15: the one random source `data_creator.py` seeds, and its seed.
Python's `random` module, from which every placement-geometry draw is taken,
is never seeded anywhere in the module. -/
def seededNumpySeed : ℕ := 42

/-- A file artifact written by `create_dataset` for sample index `i`. -/
inductive Artifact
  | image : ℕ → Artifact
  | labelFile : ℕ → Artifact
deriving DecidableEq

/-- Lines 1224–1242 of `create_dataset`, starting at sample index `i`: for
each generated sample, if it retained zero labels the index is counted as
empty and skipped entirely (`continue` fires before both writes); otherwise
the image and the label file for that index are written.  Returns the
artifacts written and the final `empty_count`. -/
def writeAux : ℕ → List (List (List Pt)) → List Artifact × ℕ
  | _, [] => ([], 0)
  | i, s :: rest =>
    let r := writeAux (i + 1) rest
    if s.isEmpty then (r.1, r.2 + 1)
    else (Artifact.image i :: Artifact.labelFile i :: r.1, r.2)

/-- The writer loop of `create_dataset` over all sample indices from 0. -/
def writeSamples (samples : List (List (List Pt))) : List Artifact × ℕ :=
  writeAux 0 samples

/-- Lines 1244–1245: the end-of-run report — the warning with the skipped
count is printed exactly when `empty_count > 0`. -/
def emptyReport (n : ℕ) : Option ℕ := if 0 < n then some n else none

/-- Lines 1139–1143 of `_fill_mosaic_quadrant`: one corner of a sub-scene
box remapped from quadrant-local normalized space into full-canvas
normalized space, with the same clamping as the source. -/
def mosaicRemap (x1 y1 rw rh msize : ℤ) (c : Pt) : Pt :=
  (clamp01 (((x1 : ℚ) + c.1 * (rw : ℚ)) / (msize : ℚ)),
   clamp01 (((y1 : ℚ) + c.2 * (rh : ℚ)) / (msize : ℚ)))

/-- Lines 1172–1177 of `generate_mosaic_image`: the four quadrant regions
`(x1, y1, x2, y2)` determined by the split point `(cx, cy)`. -/
def mosaicRegions (cx cy size : ℤ) : List (ℤ × ℤ × ℤ × ℤ) :=
  [(0, 0, cx, cy), (cx, 0, size, cy), (0, cy, cx, size), (cx, cy, size, size)]

/-- The arguments of the concrete scenario of spec §8: a 640×640 canvas, one
card of size `h × w`, scale 0.30, angle 0° (so the cosine/sine pair of
`-angle` is `(1, 0)`), centre `(0.5, 0.5)`, no flip, perspective branch not
taken. -/
def scenarioArgs (h w : ℤ) (bg : CanvasF) (px : CardPx) : PlaceArgs :=
  { hbg := 640, wbg := 640, bg := bg,
    cardH := h, cardW := w, cardPx := px, cardHasAlpha := true,
    ca := 1, sa := 0, scale := 3 / 10, posx := 1 / 2, posy := 1 / 2,
    flip := false, persp := none }

/-- A constant black canvas, used as a concrete input in witnesses. -/
def constCanvas : CanvasF := fun _ _ => (0, 0, 0)

/-- A constant opaque card image, used as a concrete input in witnesses. -/
def constCard : CardPx := fun _ _ => ((0, 0, 0), 255)

/-- One concrete behaviour of the external OpenCV routines (each returns its
input pixels unchanged), used to instantiate witnesses. -/
def trivCv : Cv2Model :=
  { resizePx := fun p _ _ => p,
    warpPerspectivePx := fun p _ _ _ => p,
    warpAffinePx := fun p _ _ _ => p }

/-! ### Shared helper lemmas -/

theorem pyInt_intCast (n : ℤ) : pyInt (n : ℚ) = n := by
  unfold pyInt
  split
  · exact Int.floor_intCast n
  · rw [show (-(n : ℚ)) = ((-n : ℤ) : ℚ) by push_cast; ring, Int.floor_intCast]
    ring

theorem pyInt_of_nonneg {q : ℚ} (h : 0 ≤ q) : pyInt q = ⌊q⌋ := if_pos h

theorem clamp01_nonneg (q : ℚ) : 0 ≤ clamp01 q := le_max_left 0 _

theorem clamp01_le_one (q : ℚ) : clamp01 q ≤ 1 :=
  max_le (by norm_num) (min_le_left 1 q)

theorem clamp01_eq_self (q : ℚ) (h0 : 0 ≤ q) (h1 : q ≤ 1) : clamp01 q = q := by
  unfold clamp01
  rw [min_eq_right h1, max_eq_right h0]

theorem cosAbs_eq (A : PlaceArgs) : cosAbs A = |A.ca| := rfl

theorem sinAbs_eq (A : PlaceArgs) : sinAbs A = |A.sa| := rfl

theorem angleZero_newBW (A : PlaceArgs) (hca : A.ca = 1) (hsa : A.sa = 0) :
    newBW A = newW A := by
  unfold newBW
  rw [cosAbs_eq, sinAbs_eq, hca, hsa]
  simp only [abs_one, abs_zero, mul_one, mul_zero, add_zero]
  exact pyInt_intCast _

theorem angleZero_newBH (A : PlaceArgs) (hca : A.ca = 1) (hsa : A.sa = 0) :
    newBH A = newH A := by
  unfold newBH
  rw [cosAbs_eq, sinAbs_eq, hca, hsa]
  simp only [abs_one, abs_zero, mul_one, mul_zero, zero_add]
  exact pyInt_intCast _

theorem angleZero_rotM (A : PlaceArgs) (hca : A.ca = 1) (hsa : A.sa = 0) :
    rotM A = ⟨1, 0, 0, 0, 1, 0⟩ := by
  have hbw := angleZero_newBW A hca hsa
  have hbh := angleZero_newBH A hca hsa
  unfold rotM rotBase getRotationMatrix2D cxq cyq cwq chq
  rw [hca, hsa, hbw, hbh]
  apply Aff.ext
  · rfl
  · rfl
  · ring
  · norm_num
  · rfl
  · ring

theorem angleZero_finalCorners (A : PlaceArgs) (hca : A.ca = 1) (hsa : A.sa = 0)
    (hpersp : A.persp = none) :
    finalCorners A =
      [((offX A : ℚ) / (A.wbg : ℚ), (offY A : ℚ) / (A.hbg : ℚ)),
       ((cwq A + (offX A : ℚ)) / (A.wbg : ℚ), (offY A : ℚ) / (A.hbg : ℚ)),
       ((cwq A + (offX A : ℚ)) / (A.wbg : ℚ), (chq A + (offY A : ℚ)) / (A.hbg : ℚ)),
       ((offX A : ℚ) / (A.wbg : ℚ), (chq A + (offY A : ℚ)) / (A.hbg : ℚ))] := by
  unfold finalCorners rotatedCorners perspCorners
  rw [hpersp, angleZero_rotM A hca hsa]
  simp [baseCorners]

/-! ### C1 -/

/-- C1: in `place_card_on_bg`, every transform applied to the card's pixel
content is applied identically to the logical corner set.  The corner list
computed component-wise at lines 932–936 equals the affine action of the one
matrix `rotM` — the same adjusted matrix handed to `cv2.warpAffine` at
line 924, built once from the single signed angle via
`getRotationMatrix2D` — applied to the (possibly perspective-adjusted)
corners; the perspective matrix handed to `cv2.warpPerspective` is the one
applied to the corners via homogeneous coordinate division; and the adjusted
translation maps the original card centre to the centre of the expanded
bounding buffer. -/
theorem c1_corner_pixel_transform_coherence (cv : Cv2Model) (A : PlaceArgs) :
    rotatedCorners A = (perspCorners A).map (affApply (rotM A))
    ∧ rotatedImg cv A = cv.warpAffinePx (perspImg cv A) (rotM A) (newBW A) (newBH A)
    ∧ perspCorners A = (match A.persp with
        | none => baseCorners A
        | some M => (baseCorners A).map (perspApply M))
    ∧ (rotM A).a = A.ca ∧ (rotM A).b = A.sa
    ∧ (rotM A).d = -A.sa ∧ (rotM A).e = A.ca
    ∧ affApply (rotM A) (cxq A, cyq A) = ((newBW A : ℚ) / 2, (newBH A : ℚ) / 2) := by
  refine ⟨rfl, rfl, rfl, rfl, rfl, rfl, rfl, ?_⟩
  unfold affApply rotM rotBase getRotationMatrix2D cxq cyq
  simp only [Prod.mk.injEq]
  constructor <;> ring

/-! ### C6 -/

/-- C6: whenever the scaled height `int(scale * canvas_height)` or the
aspect-preserving width falls below the 10-pixel minimum,
`place_card_on_bg` returns the canvas unmodified (the very input buffer)
together with `None`, before any compositing happens. -/
theorem c6_minimum_size_rejection (cv : Cv2Model) (A : PlaceArgs)
    (h : newW A < 10 ∨ newH A < 10) :
    placeCardOnBg cv A = (A.bg, none) := by
  have hs : sizeRejected A := h
  simp [placeCardOnBg, hs]

/-- Arguments with a scale so small that the resized card falls below the
10-pixel minimum (`new_h = int(640 * 0.01) = 6`). -/
def tinyScaleArgs : PlaceArgs :=
  { hbg := 640, wbg := 640, bg := constCanvas,
    cardH := 140, cardW := 100, cardPx := constCard, cardHasAlpha := true,
    ca := 1, sa := 0, scale := 1 / 100, posx := 1 / 2, posy := 1 / 2,
    flip := false, persp := none }

theorem c6_minimum_size_rejection_witness :
    (newW tinyScaleArgs < 10 ∨ newH tinyScaleArgs < 10)
    ∧ placeCardOnBg trivCv tinyScaleArgs = (tinyScaleArgs.bg, none) := by
  have h : newH tinyScaleArgs = 6 := by norm_num [newH, pyInt, tinyScaleArgs]
  have hlt : newH tinyScaleArgs < 10 := by rw [h]; norm_num
  exact ⟨Or.inr hlt, c6_minimum_size_rejection trivCv tinyScaleArgs (Or.inr hlt)⟩

/-! ### C9 -/

/-- C9: with identical random draws, the OBB corners returned by
`place_card_on_bg` are the same whether `flip_horizontal` is true or false:
the mirror touches only the pixel content (the flipped image feeding the
rest of the pixel pipeline), while the logical corner set is always built in
the unrotated order (top-left, top-right, bottom-right, bottom-left) from
the buffer dimensions, which the flip preserves. -/
theorem c9_flip_invariant_labels (cv : Cv2Model) (A : PlaceArgs) (f g : Bool) :
    (placeCardOnBg cv (withFlip A f)).2 = (placeCardOnBg cv (withFlip A g)).2
    ∧ flippedImg cv (withFlip A true) = flipH (newW A) (resizedImg cv A)
    ∧ (∀ b : Bool,
        baseCorners (withFlip A b) = [(0, 0), (cwq A, 0), (cwq A, chq A), (0, chq A)]) := by
  have key : ∀ b : Bool, (placeCardOnBg cv (withFlip A b)).2 = (placeCardOnBg cv A).2 := by
    intro b
    unfold placeCardOnBg
    have h1 : sizeRejected (withFlip A b) = sizeRejected A := rfl
    have h2 : offCanvas (withFlip A b) = offCanvas A := rfl
    have h3 : emptyRegion (withFlip A b) = emptyRegion A := rfl
    have h4 : insideCount (withFlip A b) = insideCount A := rfl
    have h5 : clampedCorners (withFlip A b) = clampedCorners A := rfl
    simp only [h1, h2, h3, h4, h5]
    split_ifs <;> rfl
  exact ⟨(key f).trans (key g).symm, rfl, fun _ => rfl⟩

/-! ### C10 -/

/-- C10: if `place_card_on_bg` rejects at the final corner-inside check
(fewer than 3 of 4 normalized corners in `[0,1]²`), the buffer it returns is
the already alpha-composited canvas — the rejection does not roll the canvas
back; only the three earlier rejections (minimum scaled size, no overlap
with the canvas, empty clipped region) return the untouched background. -/
theorem c10_late_rejection_keeps_mutation (cv : Cv2Model) (A : PlaceArgs) :
    (sizeRejected A → placeCardOnBg cv A = (A.bg, none))
    ∧ (¬sizeRejected A → offCanvas A → placeCardOnBg cv A = (A.bg, none))
    ∧ (¬sizeRejected A → ¬offCanvas A → emptyRegion A →
        placeCardOnBg cv A = (A.bg, none))
    ∧ (¬sizeRejected A → ¬offCanvas A → ¬emptyRegion A → insideCount A < 3 →
        placeCardOnBg cv A = (compositedCanvas cv A, none)) := by
  refine ⟨fun h1 => ?_, fun h1 h2 => ?_, fun h1 h2 h3 => ?_, fun h1 h2 h3 h4 => ?_⟩
  · simp [placeCardOnBg, h1]
  · simp [placeCardOnBg, h1, h2]
  · simp [placeCardOnBg, h1, h2, h3]
  · simp [placeCardOnBg, h1, h2, h3, h4]

/-- Arguments whose placement survives every early guard, composites the
card, and only then fails the corner-inside check (2 of 4 corners inside). -/
def lateRejectArgs : PlaceArgs :=
  { hbg := 100, wbg := 100, bg := constCanvas,
    cardH := 40, cardW := 40, cardPx := constCard, cardHasAlpha := true,
    ca := 1, sa := 0, scale := 2 / 5, posx := 0, posy := 1 / 2,
    flip := false, persp := none }

theorem lateRejectArgs_eval :
    newW lateRejectArgs = 40 ∧ newH lateRejectArgs = 40
    ∧ offX lateRejectArgs = -20 ∧ offY lateRejectArgs = 30 := by
  have h1 : newH lateRejectArgs = 40 := by norm_num [newH, pyInt, lateRejectArgs]
  have h2 : newW lateRejectArgs = 40 := by
    simp only [newW, h1]
    norm_num [pyInt, lateRejectArgs]
  have hbw : newBW lateRejectArgs = 40 := by
    rw [angleZero_newBW lateRejectArgs rfl rfl, h2]
  have hbh : newBH lateRejectArgs = 40 := by
    rw [angleZero_newBH lateRejectArgs rfl rfl, h1]
  have h3 : offX lateRejectArgs = -20 := by
    simp only [offX, hbw]
    norm_num [pyInt, lateRejectArgs]
  have h4 : offY lateRejectArgs = 30 := by
    simp only [offY, hbh]
    norm_num [pyInt, lateRejectArgs]
  exact ⟨h2, h1, h3, h4⟩

theorem lateRejectArgs_corners : finalCorners lateRejectArgs =
    [(-(1 / 5), 3 / 10), (1 / 5, 3 / 10), (1 / 5, 7 / 10), (-(1 / 5), 7 / 10)] := by
  have he := lateRejectArgs_eval
  rw [angleZero_finalCorners lateRejectArgs rfl rfl rfl]
  rw [he.2.2.1, he.2.2.2]
  unfold cwq chq
  rw [he.1, he.2.1]
  norm_num [lateRejectArgs]

theorem lateRejectArgs_inside : insideCount lateRejectArgs = 2 := by
  unfold insideCount
  rw [lateRejectArgs_corners]
  norm_num [List.filter]

theorem lateRejectArgs_guards :
    ¬sizeRejected lateRejectArgs ∧ ¬offCanvas lateRejectArgs
    ∧ ¬emptyRegion lateRejectArgs := by
  have he := lateRejectArgs_eval
  have hbw : newBW lateRejectArgs = 40 := by
    rw [angleZero_newBW lateRejectArgs rfl rfl, he.1]
  have hbh : newBH lateRejectArgs = 40 := by
    rw [angleZero_newBH lateRejectArgs rfl rfl, he.2.1]
  refine ⟨?_, ?_, ?_⟩
  · simp only [sizeRejected, he.1, he.2.1]
    norm_num
  · simp only [offCanvas, he.2.2.1, he.2.2.2, hbw, hbh]
    norm_num [lateRejectArgs]
  · simp only [emptyRegion, srcX1, srcX2, srcY1, srcY2, he.2.2.1, he.2.2.2, hbw, hbh]
    norm_num [lateRejectArgs]

theorem c10_late_rejection_keeps_mutation_witness :
    (¬sizeRejected lateRejectArgs ∧ ¬offCanvas lateRejectArgs
      ∧ ¬emptyRegion lateRejectArgs ∧ insideCount lateRejectArgs < 3)
    ∧ placeCardOnBg trivCv lateRejectArgs
        = (compositedCanvas trivCv lateRejectArgs, none) := by
  have hg := lateRejectArgs_guards
  have hin : insideCount lateRejectArgs < 3 := by rw [lateRejectArgs_inside]; norm_num
  exact ⟨⟨hg.1, hg.2.1, hg.2.2, hin⟩,
    (c10_late_rejection_keeps_mutation trivCv lateRejectArgs).2.2.2
      hg.1 hg.2.1 hg.2.2 hin⟩

/-! ### C3 -/

/-- Arguments whose placement is accepted: every guard passes and all four
corners land inside `[0,1]²`. -/
def acceptArgs : PlaceArgs :=
  { hbg := 100, wbg := 100, bg := constCanvas,
    cardH := 40, cardW := 40, cardPx := constCard, cardHasAlpha := true,
    ca := 1, sa := 0, scale := 2 / 5, posx := 1 / 2, posy := 1 / 2,
    flip := false, persp := none }

theorem acceptArgs_eval :
    newW acceptArgs = 40 ∧ newH acceptArgs = 40
    ∧ offX acceptArgs = 30 ∧ offY acceptArgs = 30 := by
  have h1 : newH acceptArgs = 40 := by norm_num [newH, pyInt, acceptArgs]
  have h2 : newW acceptArgs = 40 := by
    simp only [newW, h1]
    norm_num [pyInt, acceptArgs]
  have hbw : newBW acceptArgs = 40 := by
    rw [angleZero_newBW acceptArgs rfl rfl, h2]
  have hbh : newBH acceptArgs = 40 := by
    rw [angleZero_newBH acceptArgs rfl rfl, h1]
  have h3 : offX acceptArgs = 30 := by
    simp only [offX, hbw]
    norm_num [pyInt, acceptArgs]
  have h4 : offY acceptArgs = 30 := by
    simp only [offY, hbh]
    norm_num [pyInt, acceptArgs]
  exact ⟨h2, h1, h3, h4⟩

theorem acceptArgs_corners : finalCorners acceptArgs =
    [(3 / 10, 3 / 10), (7 / 10, 3 / 10), (7 / 10, 7 / 10), (3 / 10, 7 / 10)] := by
  have he := acceptArgs_eval
  rw [angleZero_finalCorners acceptArgs rfl rfl rfl]
  rw [he.2.2.1, he.2.2.2]
  unfold cwq chq
  rw [he.1, he.2.1]
  norm_num [acceptArgs]

theorem acceptArgs_inside : insideCount acceptArgs = 4 := by
  unfold insideCount
  rw [acceptArgs_corners]
  norm_num [List.filter]

theorem acceptArgs_guards :
    ¬sizeRejected acceptArgs ∧ ¬offCanvas acceptArgs ∧ ¬emptyRegion acceptArgs := by
  have he := acceptArgs_eval
  have hbw : newBW acceptArgs = 40 := by
    rw [angleZero_newBW acceptArgs rfl rfl, he.1]
  have hbh : newBH acceptArgs = 40 := by
    rw [angleZero_newBH acceptArgs rfl rfl, he.2.1]
  refine ⟨?_, ?_, ?_⟩
  · simp only [sizeRejected, he.1, he.2.1]
    norm_num
  · simp only [offCanvas, he.2.2.1, he.2.2.2, hbw, hbh]
    norm_num [acceptArgs]
  · simp only [emptyRegion, srcX1, srcX2, srcY1, srcY2, he.2.2.1, he.2.2.2, hbw, hbh]
    norm_num [acceptArgs]

theorem acceptArgs_result (cv : Cv2Model) :
    (placeCardOnBg cv acceptArgs).2 = some (clampedCorners acceptArgs) := by
  have hg := acceptArgs_guards
  unfold placeCardOnBg
  rw [if_neg hg.1, if_neg hg.2.1, if_neg hg.2.2,
    if_neg (by rw [acceptArgs_inside]; norm_num : ¬insideCount acceptArgs < 3)]

/-- C3: every box returned (non-`None`) by `place_card_on_bg` has all 8
coordinates in `[0,1]` after clamping and at least 3 of its 4 corners lay in
`[0,1]²` before clamping; whenever fewer than 3 corners lie inside, the
function returns `None`; and in the per-card loop of `generate_image` each
selected card gets exactly one placement call, a `None` outcome simply being
dropped from the sample (never retried). -/
theorem c3_normalization_bound_and_drop (cv : Cv2Model) (A : PlaceArgs)
    (place : ℕ → CanvasF → CanvasF × Option (List Pt))
    (cards : List ℕ) (bg : CanvasF) :
    (∀ bx, (placeCardOnBg cv A).2 = some bx →
        (∀ p ∈ bx, 0 ≤ p.1 ∧ p.1 ≤ 1 ∧ 0 ≤ p.2 ∧ p.2 ≤ 1) ∧ 3 ≤ insideCount A)
    ∧ (insideCount A < 3 → (placeCardOnBg cv A).2 = none)
    ∧ (placeLoop place cards bg).2 = (loopOutcomes place cards bg).reduceOption
    ∧ (loopOutcomes place cards bg).length = cards.length := by
  refine ⟨?_, ?_, ?_, ?_⟩
  · intro bx hbx
    unfold placeCardOnBg at hbx
    split_ifs at hbx with h1 h2 h3 h4
    any_goals simp at hbx
    refine ⟨?_, by omega⟩
    intro p hp
    rw [← hbx] at hp
    unfold clampedCorners at hp
    obtain ⟨c, _, rfl⟩ := List.mem_map.mp hp
    exact ⟨clamp01_nonneg _, clamp01_le_one _, clamp01_nonneg _, clamp01_le_one _⟩
  · intro h
    unfold placeCardOnBg
    split_ifs <;> rfl
  · induction cards generalizing bg with
    | nil => rfl
    | cons c rest ih =>
      simp only [placeLoop, loopOutcomes]
      cases h : (place c bg).2 with
      | none => simp [h, ih]
      | some v => simp [h, ih]
  · induction cards generalizing bg with
    | nil => rfl
    | cons c rest ih =>
      simp only [loopOutcomes, List.length_cons]
      rw [ih]

theorem c3_normalization_bound_and_drop_witness :
    ((placeCardOnBg trivCv acceptArgs).2 = some (clampedCorners acceptArgs)
      ∧ (∀ p ∈ clampedCorners acceptArgs, 0 ≤ p.1 ∧ p.1 ≤ 1 ∧ 0 ≤ p.2 ∧ p.2 ≤ 1)
      ∧ 3 ≤ insideCount acceptArgs)
    ∧ (insideCount lateRejectArgs < 3
      ∧ (placeCardOnBg trivCv lateRejectArgs).2 = none) := by
  have hres := acceptArgs_result trivCv
  have h1 := (c3_normalization_bound_and_drop trivCv acceptArgs
    (fun _ c => (c, none)) [] constCanvas).1 (clampedCorners acceptArgs) hres
  have hlt : insideCount lateRejectArgs < 3 := by
    rw [lateRejectArgs_inside]; norm_num
  have h2 := (c3_normalization_bound_and_drop trivCv lateRejectArgs
    (fun _ c => (c, none)) [] constCanvas).2.1 hlt
  exact ⟨⟨hres, h1.1, h1.2⟩, hlt, h2⟩

/-! ### C8 -/

theorem remapCore (x1 x2 size : ℤ) (t : ℚ) (h0 : (0 : ℤ) ≤ x1) (h12 : x1 ≤ x2)
    (h2s : x2 ≤ size) (hs : (0 : ℤ) < size) (ht0 : 0 ≤ t) (ht1 : t ≤ 1) :
    clamp01 (((x1 : ℚ) + t * ((x2 - x1 : ℤ) : ℚ)) / (size : ℚ))
        = ((x1 : ℚ) + t * ((x2 - x1 : ℤ) : ℚ)) / (size : ℚ)
    ∧ (x1 : ℚ) / (size : ℚ) ≤ ((x1 : ℚ) + t * ((x2 - x1 : ℤ) : ℚ)) / (size : ℚ)
    ∧ ((x1 : ℚ) + t * ((x2 - x1 : ℤ) : ℚ)) / (size : ℚ) ≤ (x2 : ℚ) / (size : ℚ) := by
  have hx0 : (0 : ℚ) ≤ (x1 : ℚ) := by exact_mod_cast h0
  have hx12 : (x1 : ℚ) ≤ (x2 : ℚ) := by exact_mod_cast h12
  have hx2s : (x2 : ℚ) ≤ (size : ℚ) := by exact_mod_cast h2s
  have hsq : (0 : ℚ) < (size : ℚ) := by exact_mod_cast hs
  have hcast : ((x2 - x1 : ℤ) : ℚ) = (x2 : ℚ) - (x1 : ℚ) := by push_cast; ring
  have key1 : (x1 : ℚ) ≤ (x1 : ℚ) + t * ((x2 : ℚ) - (x1 : ℚ)) := by
    nlinarith [mul_nonneg ht0 (sub_nonneg.mpr hx12)]
  have key2 : (x1 : ℚ) + t * ((x2 : ℚ) - (x1 : ℚ)) ≤ (x2 : ℚ) := by
    nlinarith [mul_le_of_le_one_left (sub_nonneg.mpr hx12) ht1]
  rw [hcast]
  refine ⟨?_, ?_, ?_⟩
  · apply clamp01_eq_self
    · exact div_nonneg (le_trans hx0 key1) (le_of_lt hsq)
    · rw [div_le_one hsq]
      exact le_trans key2 hx2s
  · exact (div_le_div_iff_of_pos_right hsq).mpr key1
  · exact (div_le_div_iff_of_pos_right hsq).mpr key2

/-- C8: for every sub-scene box corner with quadrant-local coordinates in
`[0,1]`, the remap of `_fill_mosaic_quadrant` — exactly the quadrant's pixel
offset and scale applied in normalized space, `(x1 + c·rw)/mosaic_size` —
lands inside that quadrant's region `[x1/size, x2/size] × [y1/size, y2/size]`
of the full canvas, and the clamping is a no-op there. -/
theorem c8_mosaic_remap_in_quadrant (size cx cy x1 y1 x2 y2 : ℤ) (c : Pt)
    (hsize : 0 < size)
    (hcx0 : 0 ≤ cx) (hcx : cx ≤ size) (hcy0 : 0 ≤ cy) (hcy : cy ≤ size)
    (hr : (x1, y1, x2, y2) ∈ mosaicRegions cx cy size)
    (h1 : 0 ≤ c.1) (h2 : c.1 ≤ 1) (h3 : 0 ≤ c.2) (h4 : c.2 ≤ 1) :
    (x1 : ℚ) / (size : ℚ) ≤ (mosaicRemap x1 y1 (x2 - x1) (y2 - y1) size c).1
    ∧ (mosaicRemap x1 y1 (x2 - x1) (y2 - y1) size c).1 ≤ (x2 : ℚ) / (size : ℚ)
    ∧ (y1 : ℚ) / (size : ℚ) ≤ (mosaicRemap x1 y1 (x2 - x1) (y2 - y1) size c).2
    ∧ (mosaicRemap x1 y1 (x2 - x1) (y2 - y1) size c).2 ≤ (y2 : ℚ) / (size : ℚ)
    ∧ (mosaicRemap x1 y1 (x2 - x1) (y2 - y1) size c).1
        = ((x1 : ℚ) + c.1 * ((x2 - x1 : ℤ) : ℚ)) / (size : ℚ)
    ∧ (mosaicRemap x1 y1 (x2 - x1) (y2 - y1) size c).2
        = ((y1 : ℚ) + c.2 * ((y2 - y1 : ℤ) : ℚ)) / (size : ℚ) := by
  have hb : (0 ≤ x1 ∧ x1 ≤ x2 ∧ x2 ≤ size) ∧ (0 ≤ y1 ∧ y1 ≤ y2 ∧ y2 ≤ size) := by
    simp only [mosaicRegions, List.mem_cons, List.not_mem_nil, or_false,
      Prod.mk.injEq] at hr
    rcases hr with ⟨e1, e2, e3, e4⟩ | ⟨e1, e2, e3, e4⟩ | ⟨e1, e2, e3, e4⟩ | ⟨e1, e2, e3, e4⟩ <;>
      (subst e1; subst e2; subst e3; subst e4; omega)
  have hx := remapCore x1 x2 size c.1 hb.1.1 hb.1.2.1 hb.1.2.2 hsize h1 h2
  have hy := remapCore y1 y2 size c.2 hb.2.1 hb.2.2.1 hb.2.2.2 hsize h3 h4
  unfold mosaicRemap
  exact ⟨by rw [hx.1]; exact hx.2.1, by rw [hx.1]; exact hx.2.2,
    by rw [hy.1]; exact hy.2.1, by rw [hy.1]; exact hy.2.2, hx.1, hy.1⟩

theorem c8_mosaic_remap_in_quadrant_witness :
    ((320, 0, 640, 320) ∈ mosaicRegions 320 320 640)
    ∧ (320 : ℚ) / 640 ≤ (mosaicRemap 320 0 (640 - 320) (320 - 0) 640 (1/2, 1/2)).1
    ∧ (mosaicRemap 320 0 (640 - 320) (320 - 0) 640 (1/2, 1/2)).1 ≤ (640 : ℚ) / 640
    ∧ (0 : ℚ) / 640 ≤ (mosaicRemap 320 0 (640 - 320) (320 - 0) 640 (1/2, 1/2)).2
    ∧ (mosaicRemap 320 0 (640 - 320) (320 - 0) 640 (1/2, 1/2)).2 ≤ (320 : ℚ) / 640 := by
  have hr : ((320 : ℤ), (0 : ℤ), (640 : ℤ), (320 : ℤ)) ∈ mosaicRegions 320 320 640 := by
    simp [mosaicRegions]
  have h := c8_mosaic_remap_in_quadrant 640 320 320 320 0 640 320 (1/2, 1/2)
    (by norm_num) (by norm_num) (by norm_num) (by norm_num) (by norm_num) hr
    (by norm_num) (by norm_num) (by norm_num) (by norm_num)
  exact ⟨hr, h.1, h.2.1, h.2.2.1, h.2.2.2.1⟩

/-! ### C7 -/

theorem posLoopFrom_all_reject (draw : ℕ → Pt) (occ : List Pt) (s : ℚ) (fuel : ℕ) :
    ∀ i cur, (∀ j, i ≤ j → j < i + fuel → acceptPos occ s (draw j) = false) →
      posLoopFrom draw occ s i fuel cur = if fuel = 0 then cur else draw (i + fuel - 1) := by
  induction fuel with
  | zero =>
    intro i cur _
    simp [posLoopFrom]
  | succ n ih =>
    intro i cur h
    simp only [posLoopFrom]
    rw [h i le_rfl (by omega)]
    simp only [Bool.false_eq_true, if_false]
    rw [ih (i + 1) (draw i) (fun j hj1 hj2 => h j (by omega) (by omega))]
    rcases Nat.eq_zero_or_pos n with h0 | h0
    · subst h0
      simp
    · rw [if_neg (by omega), if_neg (by omega)]
      congr 1
      omega

theorem posLoopFrom_first_accept (draw : ℕ → Pt) (occ : List Pt) (s : ℚ) (fuel : ℕ) :
    ∀ i j cur, i ≤ j → j < i + fuel →
      (∀ k, i ≤ k → k < j → acceptPos occ s (draw k) = false) →
      acceptPos occ s (draw j) = true →
      posLoopFrom draw occ s i fuel cur = draw j := by
  induction fuel with
  | zero =>
    intro i j cur hij hlt _ _
    omega
  | succ n ih =>
    intro i j cur hij hlt hrej hacc
    simp only [posLoopFrom]
    rcases Nat.eq_or_lt_of_le hij with rfl | hij'
    · rw [hacc]
      simp
    · rw [hrej i le_rfl hij']
      simp only [Bool.false_eq_true, if_false]
      exact ih (i + 1) j (draw i) (by omega) (by omega)
        (fun k hk1 hk2 => hrej k (by omega) hk2) hacc

/-- C7: for each card, `_place_single_card` draws up to 15 candidate centre
positions and accepts the first whose distance to every previously placed
centre exceeds `scale * 0.35`; if no candidate within the 15-draw budget is
accepted, the last-drawn position (draw 14) is used anyway; and placement
still proceeds to `place_card_on_bg` with whatever position the loop settled
on, which may itself reject it. -/
theorem c7_retry_then_accept_anyway (draw : ℕ → Pt) (occupied : List Pt) (scale : ℚ)
    (cv : Cv2Model) (hbg wbg : ℤ) (bg : CanvasF) (card : ℤ × ℤ × CardPx × Bool)
    (ca sa : ℚ) (flip : Bool) (persp : Option P3) :
    (∀ j, j < 15 → (∀ i, i < j → acceptPos occupied scale (draw i) = false) →
        acceptPos occupied scale (draw j) = true →
        pickPos draw occupied scale = draw j)
    ∧ ((∀ i, i < 15 → acceptPos occupied scale (draw i) = false) →
        pickPos draw occupied scale = draw 14)
    ∧ placeSingleCard cv hbg wbg bg (some card) ca sa scale flip persp draw occupied
        = ((placeCardOnBg cv
              { hbg := hbg, wbg := wbg, bg := bg,
                cardH := card.1, cardW := card.2.1, cardPx := card.2.2.1,
                cardHasAlpha := card.2.2.2,
                ca := ca, sa := sa, scale := scale,
                posx := (pickPos draw occupied scale).1,
                posy := (pickPos draw occupied scale).2,
                flip := flip, persp := persp }).1,
           (placeCardOnBg cv
              { hbg := hbg, wbg := wbg, bg := bg,
                cardH := card.1, cardW := card.2.1, cardPx := card.2.2.1,
                cardHasAlpha := card.2.2.2,
                ca := ca, sa := sa, scale := scale,
                posx := (pickPos draw occupied scale).1,
                posy := (pickPos draw occupied scale).2,
                flip := flip, persp := persp }).2,
           pickPos draw occupied scale) := by
  refine ⟨?_, ?_, rfl⟩
  · intro j hj hrej hacc
    exact posLoopFrom_first_accept draw occupied scale 15 0 j (1/2, 1/2)
      (Nat.zero_le j) (by omega) (fun k _ hk2 => hrej k hk2) hacc
  · intro hrej
    have h := posLoopFrom_all_reject draw occupied scale 15 0 (1/2, 1/2)
      (fun j _ hj2 => hrej j (by omega))
    simpa [pickPos] using h

theorem c7_retry_then_accept_anyway_witness :
    pickPos (fun i => ((i : ℚ) / 20, (i : ℚ) / 20)) [(0, 0)] (1 / 2) = (3 / 20, 3 / 20)
    ∧ pickPos (fun _ => (1 / 2, 1 / 2)) [(1 / 2, 1 / 2)] (1 / 2) = (1 / 2, 1 / 2) := by
  constructor
  · have h := (c7_retry_then_accept_anyway (fun i => ((i : ℚ) / 20, (i : ℚ) / 20))
      [(0, 0)] (1 / 2) trivCv 0 0 constCanvas (0, 0, constCard, true)
      1 0 false none).1 3 (by norm_num)
    rw [h]
    · norm_num
    · intro i hi
      interval_cases i <;> norm_num [acceptPos, farEnough]
    · norm_num [acceptPos, farEnough]
  · have h := (c7_retry_then_accept_anyway (fun _ => ((1 : ℚ) / 2, (1 : ℚ) / 2))
      [(1 / 2, 1 / 2)] (1 / 2) trivCv 0 0 constCanvas (0, 0, constCard, true)
      1 0 false none).2.1
    rw [h]
    intro i _
    norm_num [acceptPos, farEnough]

/-! ### C4 -/

theorem writeAux_count (samples : List (List (List Pt))) :
    ∀ start, (writeAux start samples).2 = samples.countP (fun s => s.isEmpty) := by
  induction samples with
  | nil =>
    intro start
    rfl
  | cons s rest ih =>
    intro start
    simp only [writeAux, List.countP_cons]
    cases hs : s.isEmpty <;> simp [hs, ih (start + 1)]

theorem writeAux_mem_ge (samples : List (List (List Pt))) :
    ∀ start i, (Artifact.image i ∈ (writeAux start samples).1
        ∨ Artifact.labelFile i ∈ (writeAux start samples).1) → start ≤ i := by
  induction samples with
  | nil =>
    intro start i h
    simp [writeAux] at h
  | cons s rest ih =>
    intro start i h
    simp only [writeAux] at h
    cases hs : s.isEmpty
    · rw [hs] at h
      simp only [Bool.false_eq_true, if_false, List.mem_cons] at h
      rcases h with (h | h | h) | (h | h | h)
      · cases h
        omega
      · cases h
      · exact le_trans (by omega) (ih (start + 1) i (Or.inl h))
      · cases h
      · cases h
        omega
      · exact le_trans (by omega) (ih (start + 1) i (Or.inr h))
    · rw [hs] at h
      simp only [if_true] at h
      exact le_trans (by omega) (ih (start + 1) i h)

theorem writeAux_skips_empty (samples : List (List (List Pt))) :
    ∀ start i, samples[i]? = some [] →
      Artifact.image (start + i) ∉ (writeAux start samples).1
      ∧ Artifact.labelFile (start + i) ∉ (writeAux start samples).1 := by
  induction samples with
  | nil =>
    intro start i h
    simp at h
  | cons s rest ih =>
    intro start i h
    cases i with
    | zero =>
      simp only [List.getElem?_cons_zero, Option.some.injEq] at h
      subst h
      simp only [writeAux, List.isEmpty_nil, if_true, Nat.add_zero]
      constructor <;> intro hmem
      · exact absurd (writeAux_mem_ge rest (start + 1) start (Or.inl hmem)) (by omega)
      · exact absurd (writeAux_mem_ge rest (start + 1) start (Or.inr hmem)) (by omega)
    | succ j =>
      simp only [List.getElem?_cons_succ] at h
      have hrec := ih (start + 1) j h
      have hidx : start + (j + 1) = start + 1 + j := by omega
      rw [hidx]
      simp only [writeAux]
      cases hs : s.isEmpty
      · simp only [Bool.false_eq_true, if_false, List.mem_cons]
        constructor <;> intro hmem
        · rcases hmem with h1 | h1 | h1
          · simp only [Artifact.image.injEq] at h1
            omega
          · simp at h1
          · exact hrec.1 h1
        · rcases hmem with h1 | h1 | h1
          · simp at h1
          · simp only [Artifact.labelFile.injEq] at h1
            omega
          · exact hrec.2 h1
      · simp only [if_true]
        exact hrec

/-- C4 counterexample: a run whose single sample retains zero boxes.  The
writer's loop hits `continue` before both writes, so nothing at all is
written for that index — in particular no empty label artifact, contrary to
the claim — while the zero-box sample is counted. -/
theorem c4_zero_box_writes_no_label_artifact :
    (writeSamples [[]]).1 = [] ∧ (writeSamples [[]]).2 = 1
    ∧ Artifact.labelFile 0 ∉ (writeSamples [[]]).1 := by
  refine ⟨rfl, rfl, ?_⟩
  intro h
  simp [writeSamples, writeAux] at h

/-- C4 amended: a generated sample that retains zero boxes is skipped
entirely — neither an image nor a label file is written for its index — the
writer counts every such sample in `empty_count`, and at the end of the run
a warning reporting that count is emitted exactly when it is positive. -/
theorem c4_zero_box_sample_skipped_and_counted (samples : List (List (List Pt)))
    (i : ℕ) (h : samples[i]? = some []) :
    Artifact.image i ∉ (writeSamples samples).1
    ∧ Artifact.labelFile i ∉ (writeSamples samples).1
    ∧ (writeSamples samples).2 = samples.countP (fun s => s.isEmpty)
    ∧ (0 < (writeSamples samples).2 →
        emptyReport (writeSamples samples).2 = some (writeSamples samples).2) := by
  have hs := writeAux_skips_empty samples 0 i h
  rw [Nat.zero_add] at hs
  exact ⟨hs.1, hs.2, writeAux_count samples 0, fun hp => by simp [emptyReport, hp]⟩

theorem c4_zero_box_sample_skipped_and_counted_witness :
    (([[], [[(0, 0), (1, 0), (1, 1), (0, 1)]]] : List (List (List Pt)))[0]? = some [])
    ∧ Artifact.image 0 ∉ (writeSamples [[], [[(0, 0), (1, 0), (1, 1), (0, 1)]]]).1
    ∧ Artifact.labelFile 0 ∉ (writeSamples [[], [[(0, 0), (1, 0), (1, 1), (0, 1)]]]).1
    ∧ (writeSamples [[], [[(0, 0), (1, 0), (1, 1), (0, 1)]]]).2 = 1 := by
  have h := c4_zero_box_sample_skipped_and_counted
    [[], [[(0, 0), (1, 0), (1, 1), (0, 1)]]] 0 rfl
  exact ⟨rfl, h.1, h.2.1, by rw [h.2.2.1]; rfl⟩

/-! ### C2 -/

/-- The placement arguments produced by one possible state of the unseeded
Python `random` module: angle 0°, scale 0.6, centre draw `(0.5, 0.5)` —
every value inside the ranges the source draws from. -/
def d1Args : PlaceArgs :=
  { hbg := 640, wbg := 640, bg := constCanvas,
    cardH := 140, cardW := 100, cardPx := constCard, cardHasAlpha := true,
    ca := 1, sa := 0, scale := 6 / 10, posx := 1 / 2, posy := 1 / 2,
    flip := false, persp := none }

/-- The same run with a different state of the unseeded `random` module:
identical in everything except the centre draw `(0.12, 0.5)`, still inside
the `uniform(0.12, 0.88)` range of line 1019. -/
def d2Args : PlaceArgs :=
  { hbg := 640, wbg := 640, bg := constCanvas,
    cardH := 140, cardW := 100, cardPx := constCard, cardHasAlpha := true,
    ca := 1, sa := 0, scale := 6 / 10, posx := 12 / 100, posy := 1 / 2,
    flip := false, persp := none }

theorem d1Args_eval :
    newW d1Args = 274 ∧ newH d1Args = 384 ∧ offX d1Args = 183 ∧ offY d1Args = 128 := by
  have h1 : newH d1Args = 384 := by norm_num [newH, pyInt, d1Args]
  have h2 : newW d1Args = 274 := by
    simp only [newW, h1]
    norm_num [pyInt, d1Args]
  have hbw : newBW d1Args = 274 := by
    rw [angleZero_newBW d1Args rfl rfl, h2]
  have hbh : newBH d1Args = 384 := by
    rw [angleZero_newBH d1Args rfl rfl, h1]
  have h3 : offX d1Args = 183 := by
    simp only [offX, hbw]
    norm_num [pyInt, d1Args]
  have h4 : offY d1Args = 128 := by
    simp only [offY, hbh]
    norm_num [pyInt, d1Args]
  exact ⟨h2, h1, h3, h4⟩

theorem d1Args_corners : finalCorners d1Args =
    [(183 / 640, 1 / 5), (457 / 640, 1 / 5), (457 / 640, 4 / 5), (183 / 640, 4 / 5)] := by
  have he := d1Args_eval
  rw [angleZero_finalCorners d1Args rfl rfl rfl]
  rw [he.2.2.1, he.2.2.2]
  unfold cwq chq
  rw [he.1, he.2.1]
  norm_num [d1Args]

theorem d1Args_inside : insideCount d1Args = 4 := by
  unfold insideCount
  rw [d1Args_corners]
  norm_num [List.filter]

theorem d1Args_result : (placeCardOnBg trivCv d1Args).2 = some (clampedCorners d1Args) := by
  have he := d1Args_eval
  have hbw : newBW d1Args = 274 := by rw [angleZero_newBW d1Args rfl rfl, he.1]
  have hbh : newBH d1Args = 384 := by rw [angleZero_newBH d1Args rfl rfl, he.2.1]
  have hg1 : ¬sizeRejected d1Args := by
    simp only [sizeRejected, he.1, he.2.1]
    norm_num
  have hg2 : ¬offCanvas d1Args := by
    simp only [offCanvas, he.2.2.1, he.2.2.2, hbw, hbh]
    norm_num [d1Args]
  have hg3 : ¬emptyRegion d1Args := by
    simp only [emptyRegion, srcX1, srcX2, srcY1, srcY2, he.2.2.1, he.2.2.2, hbw, hbh]
    norm_num [d1Args]
  unfold placeCardOnBg
  rw [if_neg hg1, if_neg hg2, if_neg hg3,
    if_neg (by rw [d1Args_inside]; norm_num : ¬insideCount d1Args < 3)]

theorem d2Args_eval :
    newW d2Args = 274 ∧ newH d2Args = 384 ∧ offX d2Args = -60 ∧ offY d2Args = 128 := by
  have h1 : newH d2Args = 384 := by norm_num [newH, pyInt, d2Args]
  have h2 : newW d2Args = 274 := by
    simp only [newW, h1]
    norm_num [pyInt, d2Args]
  have hbw : newBW d2Args = 274 := by
    rw [angleZero_newBW d2Args rfl rfl, h2]
  have hbh : newBH d2Args = 384 := by
    rw [angleZero_newBH d2Args rfl rfl, h1]
  have h3 : offX d2Args = -60 := by
    simp only [offX, hbw]
    norm_num [pyInt, d2Args]
  have h4 : offY d2Args = 128 := by
    simp only [offY, hbh]
    norm_num [pyInt, d2Args]
  exact ⟨h2, h1, h3, h4⟩

theorem d2Args_corners : finalCorners d2Args =
    [(-(3 / 32), 1 / 5), (107 / 320, 1 / 5), (107 / 320, 4 / 5), (-(3 / 32), 4 / 5)] := by
  have he := d2Args_eval
  rw [angleZero_finalCorners d2Args rfl rfl rfl]
  rw [he.2.2.1, he.2.2.2]
  unfold cwq chq
  rw [he.1, he.2.1]
  norm_num [d2Args]

theorem d2Args_inside : insideCount d2Args = 2 := by
  unfold insideCount
  rw [d2Args_corners]
  norm_num [List.filter]

theorem d2Args_result : (placeCardOnBg trivCv d2Args).2 = none := by
  have he := d2Args_eval
  have hbw : newBW d2Args = 274 := by rw [angleZero_newBW d2Args rfl rfl, he.1]
  have hbh : newBH d2Args = 384 := by rw [angleZero_newBH d2Args rfl rfl, he.2.1]
  have hg1 : ¬sizeRejected d2Args := by
    simp only [sizeRejected, he.1, he.2.1]
    norm_num
  have hg2 : ¬offCanvas d2Args := by
    simp only [offCanvas, he.2.2.1, he.2.2.2, hbw, hbh]
    norm_num [d2Args]
  have hg3 : ¬emptyRegion d2Args := by
    simp only [emptyRegion, srcX1, srcX2, srcY1, srcY2, he.2.2.1, he.2.2.2, hbw, hbh]
    norm_num [d2Args]
  unfold placeCardOnBg
  rw [if_neg hg1, if_neg hg2, if_neg hg3,
    if_pos (by rw [d2Args_inside]; norm_num : insideCount d2Args < 3)]

theorem c2_singleLabels_d1 :
    singleCardSampleLabels trivCv 640 640 constCanvas (some (140, 100, constCard, true))
      1 0 (6 / 10) false none (fun _ => (1 / 2, 1 / 2)) = [clampedCorners d1Args] := by
  unfold singleCardSampleLabels
  rw [show (placeSingleCard trivCv 640 640 constCanvas (some (140, 100, constCard, true))
      1 0 (6 / 10) false none (fun _ => (1 / 2, 1 / 2)) []).2.1
    = (placeCardOnBg trivCv d1Args).2 from rfl, d1Args_result]

theorem c2_singleLabels_d2 :
    singleCardSampleLabels trivCv 640 640 constCanvas (some (140, 100, constCard, true))
      1 0 (6 / 10) false none (fun _ => (12 / 100, 1 / 2)) = [] := by
  unfold singleCardSampleLabels
  rw [show (placeSingleCard trivCv 640 640 constCanvas (some (140, 100, constCard, true))
      1 0 (6 / 10) false none (fun _ => (12 / 100, 1 / 2)) []).2.1
    = (placeCardOnBg trivCv d2Args).2 from rfl, d2Args_result]

/-- C2: the retained labels of a one-card sample are a non-constant function
of the draws taken from Python's `random` module, which `data_creator.py`
never seeds (only the NumPy generator is seeded, line 15, and it is not
consulted for label geometry).  Two runs of the generation with the same seed
and card list whose unseeded `random` states differ only in one centre draw —
both draws inside the ranges `uniform(0.12, 0.88)` of line 1019, with scale
`0.6 ∈ [0.12, 0.6]` and angle `0° ∈ [-75°, 75°]` (cosine/sine `(1, 0)`) —
produce different label files (one box versus none), refuting byte-identical
label output. -/
theorem c2_labels_depend_on_unseeded_randomness :
    singleCardSampleLabels trivCv 640 640 constCanvas (some (140, 100, constCard, true))
        1 0 (6 / 10) false none (fun _ => (1 / 2, 1 / 2))
      ≠ singleCardSampleLabels trivCv 640 640 constCanvas (some (140, 100, constCard, true))
        1 0 (6 / 10) false none (fun _ => (12 / 100, 1 / 2))
    ∧ ((12 : ℚ) / 100 ≤ 1 / 2 ∧ (1 : ℚ) / 2 ≤ 88 / 100
        ∧ (12 : ℚ) / 100 ≤ 12 / 100 ∧ (12 : ℚ) / 100 ≤ 88 / 100)
    ∧ ((12 : ℚ) / 100 ≤ 6 / 10 ∧ (6 : ℚ) / 10 ≤ 6 / 10)
    ∧ Real.cos 0 = 1 ∧ Real.sin 0 = 0 := by
  refine ⟨?_, by norm_num, by norm_num, Real.cos_zero, Real.sin_zero⟩
  rw [c2_singleLabels_d1, c2_singleLabels_d2]
  simp


/-! ### C5 -/

theorem scenario_newH (hc wc : ℤ) (bg : CanvasF) (px : CardPx) :
    newH (scenarioArgs hc wc bg px) = 192 := by
  norm_num [newH, pyInt, scenarioArgs]

theorem scenario_newW (hc wc : ℤ) (bg : CanvasF) (px : CardPx) :
    newW (scenarioArgs hc wc bg px) = pyInt ((192 : ℚ) * (wc : ℚ) / (hc : ℚ)) := by
  simp only [newW, scenario_newH]
  norm_num [scenarioArgs]

theorem scenario_geom (bg : CanvasF) (px : CardPx) (hc wc n : ℤ)
    (hn : newW (scenarioArgs hc wc bg px) = n) (h640 : n ≤ 640) :
    newBW (scenarioArgs hc wc bg px) = n
    ∧ newBH (scenarioArgs hc wc bg px) = 192
    ∧ offY (scenarioArgs hc wc bg px) = 224
    ∧ offX (scenarioArgs hc wc bg px) = ⌊(320 : ℚ) - (n : ℚ) / 2⌋ := by
  have hH := scenario_newH hc wc bg px
  have hBW : newBW (scenarioArgs hc wc bg px) = n := by
    rw [angleZero_newBW _ rfl rfl, hn]
  have hBH : newBH (scenarioArgs hc wc bg px) = 192 := by
    rw [angleZero_newBH _ rfl rfl, hH]
  have hoy : offY (scenarioArgs hc wc bg px) = 224 := by
    simp only [offY, hBH]
    norm_num [pyInt, scenarioArgs]
  have hq : (scenarioArgs hc wc bg px).posx * ((scenarioArgs hc wc bg px).wbg : ℚ)
      - (newBW (scenarioArgs hc wc bg px) : ℚ) / 2 = 320 - (n : ℚ) / 2 := by
    rw [hBW]
    norm_num [scenarioArgs]
  have hnq640 : (n : ℚ) ≤ 640 := by exact_mod_cast h640
  have hox : offX (scenarioArgs hc wc bg px) = ⌊(320 : ℚ) - (n : ℚ) / 2⌋ := by
    rw [offX, hq]
    exact pyInt_of_nonneg (by linarith)
  exact ⟨hBW, hBH, hoy, hox⟩

theorem scenario_offX_parity (bg : CanvasF) (px : CardPx) (hc wc n : ℤ)
    (hn : newW (scenarioArgs hc wc bg px) = n) (h640 : n ≤ 640) :
    2 * offX (scenarioArgs hc wc bg px) + n = 640
    ∨ 2 * offX (scenarioArgs hc wc bg px) + n = 639 := by
  have hox := (scenario_geom bg px hc wc n hn h640).2.2.2
  rcases Int.even_or_odd n with ⟨m, hm⟩ | ⟨m, hm⟩
  · left
    have h1 : (320 : ℚ) - (n : ℚ) / 2 = ((320 - m : ℤ) : ℚ) := by
      push_cast [hm]
      ring
    rw [hox, h1, Int.floor_intCast]
    omega
  · right
    have h1 : ⌊(320 : ℚ) - (n : ℚ) / 2⌋ = 319 - m := by
      rw [Int.floor_eq_iff]
      constructor
      · push_cast [hm]
        linarith
      · push_cast [hm]
        linarith
    rw [hox, h1]
    omega

theorem scenario_offX_bounds (bg : CanvasF) (px : CardPx) (hc wc n : ℤ)
    (hn : newW (scenarioArgs hc wc bg px) = n) (h10 : 10 ≤ n) (h640 : n ≤ 640) :
    0 ≤ offX (scenarioArgs hc wc bg px)
    ∧ offX (scenarioArgs hc wc bg px) + n ≤ 640
    ∧ offX (scenarioArgs hc wc bg px) < 640 := by
  have hpar := scenario_offX_parity bg px hc wc n hn h640
  refine ⟨by omega, by omega, by omega⟩

theorem scenario_src (bg : CanvasF) (px : CardPx) (hc wc n : ℤ)
    (hn : newW (scenarioArgs hc wc bg px) = n) (h10 : 10 ≤ n) (h640 : n ≤ 640) :
    srcX1 (scenarioArgs hc wc bg px) = 0
    ∧ srcX2 (scenarioArgs hc wc bg px) = n
    ∧ srcY1 (scenarioArgs hc wc bg px) = 0
    ∧ srcY2 (scenarioArgs hc wc bg px) = 192 := by
  obtain ⟨hBW, hBH, hoy, -⟩ := scenario_geom bg px hc wc n hn h640
  obtain ⟨hox0, hoxn, -⟩ := scenario_offX_bounds bg px hc wc n hn h10 h640
  refine ⟨?_, ?_, ?_, ?_⟩
  · rw [srcX1, max_eq_left (by omega : -offX (scenarioArgs hc wc bg px) ≤ 0)]
  · rw [srcX2, hBW, show (scenarioArgs hc wc bg px).wbg = 640 from rfl,
      min_eq_left (by omega : n ≤ 640 - offX (scenarioArgs hc wc bg px))]
  · rw [srcY1, hoy, max_eq_left (by norm_num : -(224 : ℤ) ≤ 0)]
  · rw [srcY2, hBH, hoy, show (scenarioArgs hc wc bg px).hbg = 640 from rfl,
      min_eq_left (by norm_num : (192 : ℤ) ≤ 640 - 224)]

theorem scenario_guards (bg : CanvasF) (px : CardPx) (hc wc n : ℤ)
    (hn : newW (scenarioArgs hc wc bg px) = n) (h10 : 10 ≤ n) (h640 : n ≤ 640) :
    ¬sizeRejected (scenarioArgs hc wc bg px)
    ∧ ¬offCanvas (scenarioArgs hc wc bg px)
    ∧ ¬emptyRegion (scenarioArgs hc wc bg px) := by
  have hH := scenario_newH hc wc bg px
  obtain ⟨hBW, hBH, hoy, -⟩ := scenario_geom bg px hc wc n hn h640
  obtain ⟨hox0, hoxn, hox640⟩ := scenario_offX_bounds bg px hc wc n hn h10 h640
  obtain ⟨hsx1, hsx2, hsy1, hsy2⟩ := scenario_src bg px hc wc n hn h10 h640
  refine ⟨?_, ?_, ?_⟩
  · simp only [sizeRejected, hn, hH]
    omega
  · simp only [offCanvas, hBW, hBH, hoy,
      show (scenarioArgs hc wc bg px).wbg = 640 from rfl,
      show (scenarioArgs hc wc bg px).hbg = 640 from rfl]
    omega
  · intro hcon
    have hcon2 : srcX2 (scenarioArgs hc wc bg px) ≤ srcX1 (scenarioArgs hc wc bg px)
        ∨ srcY2 (scenarioArgs hc wc bg px) ≤ srcY1 (scenarioArgs hc wc bg px) := hcon
    rw [hsx1, hsx2, hsy1, hsy2] at hcon2
    rcases hcon2 with h1 | h1
    · omega
    · norm_num at h1

theorem scenario_finalCorners (bg : CanvasF) (px : CardPx) (hc wc n : ℤ)
    (hn : newW (scenarioArgs hc wc bg px) = n) (h640 : n ≤ 640) :
    finalCorners (scenarioArgs hc wc bg px) =
      [((offX (scenarioArgs hc wc bg px) : ℚ) / 640, 224 / 640),
       (((n : ℚ) + (offX (scenarioArgs hc wc bg px) : ℚ)) / 640, 224 / 640),
       (((n : ℚ) + (offX (scenarioArgs hc wc bg px) : ℚ)) / 640, 416 / 640),
       ((offX (scenarioArgs hc wc bg px) : ℚ) / 640, 416 / 640)] := by
  obtain ⟨-, -, hoy, -⟩ := scenario_geom bg px hc wc n hn h640
  rw [angleZero_finalCorners _ rfl rfl rfl, hoy]
  unfold cwq chq
  rw [hn, scenario_newH]
  norm_num [scenarioArgs]

theorem scenario_corner_bounds (bg : CanvasF) (px : CardPx) (hc wc n : ℤ)
    (hn : newW (scenarioArgs hc wc bg px) = n) (h10 : 10 ≤ n) (h640 : n ≤ 640) :
    ((0 : ℚ) ≤ (offX (scenarioArgs hc wc bg px) : ℚ) / 640
      ∧ (offX (scenarioArgs hc wc bg px) : ℚ) / 640 ≤ 1)
    ∧ ((0 : ℚ) ≤ ((n : ℚ) + (offX (scenarioArgs hc wc bg px) : ℚ)) / 640
      ∧ ((n : ℚ) + (offX (scenarioArgs hc wc bg px) : ℚ)) / 640 ≤ 1) := by
  obtain ⟨hox0, hoxn, hox640⟩ := scenario_offX_bounds bg px hc wc n hn h10 h640
  refine ⟨⟨?_, ?_⟩, ?_, ?_⟩
  · exact div_nonneg (by exact_mod_cast hox0) (by norm_num)
  · rw [div_le_one (by norm_num : (0 : ℚ) < 640)]
    exact_mod_cast le_of_lt hox640
  · apply div_nonneg _ (by norm_num)
    have h : (0 : ℤ) ≤ n + offX (scenarioArgs hc wc bg px) := by omega
    exact_mod_cast h
  · rw [div_le_one (by norm_num : (0 : ℚ) < 640)]
    have h : n + offX (scenarioArgs hc wc bg px) ≤ 640 := by omega
    exact_mod_cast h

theorem scenario_insideCount (bg : CanvasF) (px : CardPx) (hc wc n : ℤ)
    (hn : newW (scenarioArgs hc wc bg px) = n) (h10 : 10 ≤ n) (h640 : n ≤ 640) :
    insideCount (scenarioArgs hc wc bg px) = 4 := by
  obtain ⟨⟨hb1, hb2⟩, hb3, hb4⟩ := scenario_corner_bounds bg px hc wc n hn h10 h640
  have hfc := scenario_finalCorners bg px hc wc n hn h640
  have hall : ∀ p ∈ finalCorners (scenarioArgs hc wc bg px),
      (fun c : Pt => decide (0 ≤ c.1 ∧ c.1 ≤ 1 ∧ 0 ≤ c.2 ∧ c.2 ≤ 1)) p = true := by
    rw [hfc]
    intro p hp
    simp only [List.mem_cons, List.not_mem_nil, or_false] at hp
    rcases hp with rfl | rfl | rfl | rfl
    · rw [decide_eq_true_eq]
      exact ⟨hb1, hb2, by norm_num, by norm_num⟩
    · rw [decide_eq_true_eq]
      exact ⟨hb3, hb4, by norm_num, by norm_num⟩
    · rw [decide_eq_true_eq]
      exact ⟨hb3, hb4, by norm_num, by norm_num⟩
    · rw [decide_eq_true_eq]
      exact ⟨hb1, hb2, by norm_num, by norm_num⟩
  unfold insideCount
  rw [List.filter_eq_self.mpr hall, hfc]
  rfl

theorem scenario_clamped (bg : CanvasF) (px : CardPx) (hc wc n : ℤ)
    (hn : newW (scenarioArgs hc wc bg px) = n) (h10 : 10 ≤ n) (h640 : n ≤ 640) :
    clampedCorners (scenarioArgs hc wc bg px) = finalCorners (scenarioArgs hc wc bg px) := by
  obtain ⟨⟨hb1, hb2⟩, hb3, hb4⟩ := scenario_corner_bounds bg px hc wc n hn h10 h640
  have hfc := scenario_finalCorners bg px hc wc n hn h640
  unfold clampedCorners
  rw [hfc]
  simp only [List.map_cons, List.map_nil]
  rw [clamp01_eq_self _ hb1 hb2, clamp01_eq_self _ hb3 hb4,
    clamp01_eq_self ((224 : ℚ) / 640) (by norm_num) (by norm_num),
    clamp01_eq_self ((416 : ℚ) / 640) (by norm_num) (by norm_num)]

theorem scenario_result (cv : Cv2Model) (bg : CanvasF) (px : CardPx) (hc wc n : ℤ)
    (hn : newW (scenarioArgs hc wc bg px) = n) (h10 : 10 ≤ n) (h640 : n ≤ 640) :
    (placeCardOnBg cv (scenarioArgs hc wc bg px)).2
      = some (clampedCorners (scenarioArgs hc wc bg px)) := by
  obtain ⟨hg1, hg2, hg3⟩ := scenario_guards bg px hc wc n hn h10 h640
  have hcount := scenario_insideCount bg px hc wc n hn h10 h640
  unfold placeCardOnBg
  rw [if_neg hg1, if_neg hg2, if_neg hg3,
    if_neg (by rw [hcount]; norm_num : ¬insideCount (scenarioArgs hc wc bg px) < 3)]

theorem scenario_width (hc wc n : ℤ) (bg : CanvasF) (px : CardPx)
    (hh : 0 < hc) (hw : 0 ≤ wc)
    (hn : newW (scenarioArgs hc wc bg px) = n) :
    ((n : ℚ) ≤ (3 / 10) * 640 * ((wc : ℚ) / (hc : ℚ)))
    ∧ ((3 / 10) * 640 * ((wc : ℚ) / (hc : ℚ)) - 1 < (n : ℚ)) := by
  have hwq : (0 : ℚ) ≤ (wc : ℚ) := by exact_mod_cast hw
  have hhq : (0 : ℚ) < (hc : ℚ) := by exact_mod_cast hh
  have hq0 : (0 : ℚ) ≤ 192 * (wc : ℚ) / (hc : ℚ) :=
    div_nonneg (by linarith) (le_of_lt hhq)
  have hfl : n = ⌊(192 : ℚ) * (wc : ℚ) / (hc : ℚ)⌋ := by
    rw [← hn, scenario_newW, pyInt_of_nonneg hq0]
  have heq : (3 / 10 : ℚ) * 640 * ((wc : ℚ) / (hc : ℚ)) = 192 * (wc : ℚ) / (hc : ℚ) := by
    ring
  constructor
  · rw [heq, hfl]
    exact Int.floor_le _
  · rw [heq, hfl]
    exact Int.sub_one_lt_floor _

/-- C5: the concrete scenario of spec §8.  On a 640×640 canvas, a card of
height `hc` and width `wc` placed with scale 0.30, angle 0°, centre
`(0.5, 0.5)`, no flip and no perspective yields an axis-aligned box: two
distinct x-coordinates (`ox/640` and `(n + ox)/640`, where `n` is the
truncated scaled width and `ox = offX`) and two distinct y-coordinates
(`224/640` and `416/640`).  Its centre is `((2·ox + n)/2, 320)` in pixels,
with `2·ox + n ∈ {640, 639}` — i.e. the x-centre is 320 exactly when `n` is
even and 319.5 when odd, within half a pixel of (320, 320) as forced by the
`int()` truncation of the offset.  The height is exactly
`192 = 0.30 × 640` pixels, and the width `n` satisfies
`0.30 × 640 × (wc/hc) - 1 < n ≤ 0.30 × 640 × (wc/hc)`, i.e. it is the
aspect-preserving width up to integer truncation. -/
theorem c5_concrete_scenario (cv : Cv2Model) (bg : CanvasF) (px : CardPx)
    (hc wc n : ℤ) (hh : 0 < hc) (hw : 0 ≤ wc)
    (hn : newW (scenarioArgs hc wc bg px) = n)
    (h10 : 10 ≤ n) (h640 : n ≤ 640) :
    (placeCardOnBg cv (scenarioArgs hc wc bg px)).2 =
      some [((offX (scenarioArgs hc wc bg px) : ℚ) / 640, 224 / 640),
            (((n : ℚ) + (offX (scenarioArgs hc wc bg px) : ℚ)) / 640, 224 / 640),
            (((n : ℚ) + (offX (scenarioArgs hc wc bg px) : ℚ)) / 640, 416 / 640),
            ((offX (scenarioArgs hc wc bg px) : ℚ) / 640, 416 / 640)]
    ∧ (2 * offX (scenarioArgs hc wc bg px) + n = 640
        ∨ 2 * offX (scenarioArgs hc wc bg px) + n = 639)
    ∧ newH (scenarioArgs hc wc bg px) = 192
    ∧ ((192 : ℚ) = (3 / 10) * 640)
    ∧ ((n : ℚ) ≤ (3 / 10) * 640 * ((wc : ℚ) / (hc : ℚ)))
    ∧ ((3 / 10) * 640 * ((wc : ℚ) / (hc : ℚ)) - 1 < (n : ℚ)) := by
  have hw1 := scenario_width hc wc n bg px hh hw hn
  refine ⟨?_, scenario_offX_parity bg px hc wc n hn h640,
    scenario_newH hc wc bg px, by norm_num, hw1.1, hw1.2⟩
  rw [scenario_result cv bg px hc wc n hn h10 h640,
    scenario_clamped bg px hc wc n hn h10 h640,
    scenario_finalCorners bg px hc wc n hn h640]

theorem c5_concrete_scenario_witness :
    newW (scenarioArgs 140 100 constCanvas constCard) = 137
    ∧ (2 * offX (scenarioArgs 140 100 constCanvas constCard) + 137 = 640
        ∨ 2 * offX (scenarioArgs 140 100 constCanvas constCard) + 137 = 639)
    ∧ (placeCardOnBg trivCv (scenarioArgs 140 100 constCanvas constCard)).2 =
        some [((offX (scenarioArgs 140 100 constCanvas constCard) : ℚ) / 640, 224 / 640),
              ((((137 : ℤ) : ℚ)
                  + (offX (scenarioArgs 140 100 constCanvas constCard) : ℚ)) / 640,
                224 / 640),
              ((((137 : ℤ) : ℚ)
                  + (offX (scenarioArgs 140 100 constCanvas constCard) : ℚ)) / 640,
                416 / 640),
              ((offX (scenarioArgs 140 100 constCanvas constCard) : ℚ) / 640, 416 / 640)] := by
  have hn : newW (scenarioArgs 140 100 constCanvas constCard) = 137 := by
    simp only [newW, scenario_newH]
    norm_num [pyInt, scenarioArgs]
  have h := c5_concrete_scenario trivCv constCanvas constCard 140 100 137
    (by norm_num) (by norm_num) hn (by norm_num) (by norm_num)
  exact ⟨hn, h.2.1, h.1⟩

end DataCreator
